import Mathlib

/-
  Verification of the Surge download engine's core components against its
  specification.  The Go source is shallowly embedded: each Go function that a
  claim depends on is translated into an executable Lean definition, and the
  claims are settled as theorems about those definitions.

  Components embedded here:
  * the concurrent task queue (`internal/engine/concurrent`, file with
    `TaskQueue`): `Push`, `PushMultiple`, `Pop`, `Close`, `Len`,
    `DrainRemaining`, `signalWaitingWorkersLocked`;
  * the single-connection downloader (`internal/engine/single/downloader.go`):
    the redirect policy of `newSingleClient`, the control flow of `Download`,
    and the progress reader's `flushWithTime`;
  * the SSE event codec (`internal/engine/events/events.go`):
    `EncodeSSEMessages`, `EventTypeForMessage`, `DecodeSSEMessage`.
-/

namespace Surge

/-- Modelled from the spec: `types.Task` (the `types` package is not among the
provided sources; the spec gives `{chunk_index, offset, length, attempt,
mirror_hint?}`).  The queue never inspects these fields, so the claims about
the queue hold for arbitrary task values. -/
structure Task where
  chunkIndex : Int
  offset : Int
  length : Int
  attempt : Int
  mirrorHint : Option String
deriving DecidableEq, Repr

instance : Inhabited Task := ⟨⟨0, 0, 0, 0, none⟩⟩

instance {ε α : Type _} [DecidableEq ε] [DecidableEq α] : DecidableEq (Except ε α) :=
  fun a b =>
  match a, b with
  | .error e, .error f =>
    match decEq e f with
    | isTrue h => isTrue (by rw [h])
    | isFalse h => isFalse fun hc => h (Except.error.inj hc)
  | .error _, .ok _ => isFalse fun hc => Except.noConfusion hc
  | .ok _, .error _ => isFalse fun hc => Except.noConfusion hc
  | .ok x, .ok y =>
    match decEq x y with
    | isTrue h => isTrue (by rw [h])
    | isFalse h => isFalse fun hc => h (Except.ok.inj hc)

namespace Concurrent

/-- `TaskQueue` from the Go source.  The mutex and condition variable are
synchronisation devices with no sequential content; the atomic counters
`idleWorkers`, `waiting` and `size` are plain integer fields here (the claims
are about sequential executions, where each Go operation runs under the
queue's lock). -/
structure TaskQueue where
  tasks : List Task
  head : Nat
  done : Bool
  idleWorkers : Int
  waiting : Int
  size : Int
deriving DecidableEq, Repr

/-- `NewTaskQueue` from the Go source (zero value of the struct). -/
def NewTaskQueue : TaskQueue :=
  { tasks := [], head := 0, done := false, idleWorkers := 0, waiting := 0, size := 0 }

/-- `signalWaitingWorkersLocked` from the Go source, returning the number of
`cond.Signal()` calls it performs given `maxSignals` and the current value of
the `waiting` counter. -/
def signalWaitingWorkersLocked (maxSignals : Int) (waiting : Int) : Nat :=
  if maxSignals ≤ 0 then 0
  else if waiting ≤ 0 then 0
  else if maxSignals > waiting then waiting.toNat else maxSignals.toNat

/-- `Push` from the Go source.  Returns the updated queue together with the
number of `Signal` calls issued. -/
def Push (q : TaskQueue) (t : Task) : TaskQueue × Nat :=
  ({ q with tasks := q.tasks ++ [t], size := q.size + 1 },
   signalWaitingWorkersLocked 1 q.waiting)

/-- `PushMultiple` from the Go source. -/
def PushMultiple (q : TaskQueue) (ts : List Task) : TaskQueue × Nat :=
  if ts.length = 0 then (q, 0)
  else
    ({ q with tasks := q.tasks ++ ts, size := q.size + ts.length },
     signalWaitingWorkersLocked ts.length q.waiting)

/-- The observable outcome of one `Pop` call in a sequential execution:
either the caller would block on the condition variable (queue empty and not
closed), or `Pop` returns `(Task{}, false)` (queue empty and closed), or it
returns a task with `true`. -/
inductive PopResult where
  | blocked
  | closed
  | popped (t : Task)
deriving DecidableEq, Repr

/-- `Pop` from the Go source.  The `for ... cond.Wait()` loop is represented by
the `blocked` outcome when the queue is empty and not yet closed; otherwise the
code after the loop runs: return `closed` on an empty closed queue, else take
`tasks[head]`, advance `head`, decrement `size`, and compact the backing slice
when the consumed prefix exceeds half of it. -/
def Pop (q : TaskQueue) : PopResult × TaskQueue :=
  if q.tasks.length = q.head ∧ ¬q.done then (.blocked, q)
  else if q.tasks.length = q.head then (.closed, q)
  else
    let t := q.tasks.getD q.head default
    let head' := q.head + 1
    let size' := q.size - 1
    if head' > q.tasks.length / 2 then
      (.popped t, { q with tasks := q.tasks.drop head', head := 0, size := size' })
    else
      (.popped t, { q with head := head', size := size' })

/-- `Close` from the Go source (the broadcast wakes waiters; it does not change
the sequential state beyond `done`). -/
def Close (q : TaskQueue) : TaskQueue :=
  { q with done := true }

/-- `Len` from the Go source. -/
def Len (q : TaskQueue) : Int := q.size

/-- `DrainRemaining` from the Go source. -/
def DrainRemaining (q : TaskQueue) : List Task × TaskQueue :=
  if q.head ≥ q.tasks.length then ([], q)
  else
    (q.tasks.drop q.head, { q with tasks := [], head := 0, size := 0 })

/-- The tasks currently pending in the queue (pushed, not yet popped). -/
def pending (q : TaskQueue) : List Task := q.tasks.drop q.head

/-- Well-formedness maintained by every queue operation: the consumed prefix
never exceeds the buffer, and the atomic `size` counter tracks the number of
pending tasks. -/
def WF (q : TaskQueue) : Prop :=
  q.head ≤ q.tasks.length ∧ q.size = (q.tasks.length : Int) - (q.head : Int)

instance (q : TaskQueue) : Decidable (WF q) := by unfold WF; infer_instance

/-- One push operation: a `Push` of a single task or a `PushMultiple`. -/
inductive PushOp where
  | single (t : Task)
  | multi (ts : List Task)

/-- The tasks contributed by a sequence of push operations, in push order. -/
def flatOps : List PushOp → List Task
  | [] => []
  | .single t :: rest => t :: flatOps rest
  | .multi ts :: rest => ts ++ flatOps rest

/-- Run a sequence of push operations against the queue. -/
def runPushes (q : TaskQueue) : List PushOp → TaskQueue
  | [] => q
  | .single t :: rest => runPushes (Push q t).1 rest
  | .multi ts :: rest => runPushes (PushMultiple q ts).1 rest

/-- Run `k` successive `Pop` calls, collecting the returned tasks; stop at the
first call that blocks or reports the queue closed. -/
def popN : Nat → TaskQueue → List Task × TaskQueue
  | 0, q => ([], q)
  | k + 1, q =>
    match Pop q with
    | (.popped t, q') =>
      let p := popN k q'
      (t :: p.1, p.2)
    | (_, q') => ([], q')

end Concurrent

/-- Modelled from the spec: `types.ProgressState` (the `types` package is not
among the provided sources; the spec lists `downloaded`, `verified_progress`,
`active_connections`, `total_size`, `chunk_progress[]`, `paused`, `cancelled`).
The Go fields are atomics; sequential reads and stores are plain field
accesses here. -/
structure ProgressState where
  downloaded : Int
  verifiedProgress : Int
  activeConnections : Int
  totalSize : Int
  chunkProgress : List Int
  paused : Bool
  cancelled : Bool
deriving DecidableEq, Repr

instance : Inhabited ProgressState := ⟨⟨0, 0, 0, 0, [], false, false⟩⟩

namespace Single

/-- An outbound HTTP request, reduced to the part the redirect policy reads
and writes: its header map.  Go's `http.Header` is a `map[string][]string`;
it is modelled as an association list whose keys are distinct. -/
structure Request where
  header : List (String × List String)
deriving DecidableEq, Repr

/-- Go map assignment `h[k] = vs`: replace the binding of `k` if present,
otherwise add it. -/
def setHeader : List (String × List String) → String → List String → List (String × List String)
  | [], k, vs => [(k, vs)]
  | (k', vs') :: rest, k, vs =>
    if k' = k then (k, vs) :: rest else (k', vs') :: setHeader rest k vs

/-- Go map lookup `h[k]`. -/
def getHeader : List (String × List String) → String → Option (List String)
  | [], _ => none
  | (k', vs) :: rest, k => if k' = k then some vs else getHeader rest k

/-- The loop body of the redirect policy:
`for key, vals := range via[0].Header { req.Header[key] = vals }`. -/
def copyHeaders (dst : List (String × List String)) (src : List (String × List String)) :
    List (String × List String) :=
  src.foldl (fun acc kv => setHeader acc kv.1 kv.2) dst

/-- The `CheckRedirect` function installed by `newSingleClient` in
`internal/engine/single/downloader.go` (the probe client installs the same
policy).  `req` is the upcoming redirected request, `via` the requests already
made, oldest first, so `via` head is the original request. -/
def checkRedirect (req : Request) (via : List Request) : Except String Request :=
  if via.length ≥ 10 then .error "stopped after 10 redirects"
  else
    match via with
    | [] => .ok req
    | orig :: _ => .ok { header := copyHeaders req.header orig.header }

/-- Filesystem effects performed by `Download`, in program order. -/
inductive FsEvent where
  | created
  | prealloc (n : Int)
  | truncated (n : Int)
  | synced
  | renamed
  | copyFallback
  | removedWorking
deriving DecidableEq, Repr

/-- The distinct error returns of `Download`, one per `return err` site. -/
inductive DlError where
  | requestErr
  | httpErr
  | unexpectedStatus (code : Int)
  | createErr
  | preallocErr
  | copyErr
  | ctxCancelled
  | truncateErr
  | syncErr
  | closeErr
  | finalizeErr
deriving DecidableEq, Repr

/-- The slice of the filesystem `Download` touches: whether the `.surge`
working file and the final destination file exist. -/
structure FS where
  workingExists : Bool
  finalExists : Bool
deriving DecidableEq, Repr

/-- Outcomes of the external calls `Download` makes, fixed up front so the
function itself is deterministic.  `doResult` is the HTTP round trip (network
error, or a response with the given status code); `copyResult` is
`io.CopyBuffer` (error, or the number of bytes written);
`ctxCancelledAtCopy` says whether `ctx.Err()` is non-nil at the moment the
copy fails. -/
structure Oracle where
  reqOk : Bool
  doResult : Except Unit Int
  createOk : Bool
  preallocOk : Bool
  copyResult : Except Unit Int
  ctxCancelledAtCopy : Bool
  truncOk : Bool
  syncOk : Bool
  closeOk : Bool
  renameOk : Bool
  copyFileOk : Bool
deriving Repr

/-- An error return taken after the cleanup `defer` has been registered: the
deferred function closes the file and, since `success` is still false,
removes the working path. -/
def finishErr (e : DlError) (fs : FS) (tr : List FsEvent) :
    Except DlError Unit × FS × List FsEvent :=
  (.error e, { fs with workingExists := false }, tr ++ [.removedWorking])

/-- The tail of `Download` after the copy succeeded: conditional truncate is
handled by the caller; here `Sync`, explicit `Close`, then `os.Rename` with
the `copyFile` fallback (which removes the working file afterwards). -/
def finalize (o : Oracle) (fs : FS) (tr : List FsEvent) :
    Except DlError Unit × FS × List FsEvent :=
  if ¬ o.syncOk then finishErr .syncErr fs tr
  else
    let tr := tr ++ [FsEvent.synced]
    if ¬ o.closeOk then finishErr .closeErr fs tr
    else if o.renameOk then
      (.ok (), { fs with workingExists := false, finalExists := true }, tr ++ [.renamed])
    else if o.copyFileOk then
      (.ok (), { fs with workingExists := false, finalExists := true },
       tr ++ [.copyFallback, .removedWorking])
    else finishErr .finalizeErr fs tr

/-- `(*SingleDownloader).Download` from `internal/engine/single/downloader.go`,
as a function of the external-call outcomes, the probed `fileSize`, and the
filesystem.  It returns the Go return value, the final filesystem, and the
trace of filesystem effects.  Faithful control-flow points: the `.surge`
working file is created only after the status check; the cleanup `defer` is
registered only after `preallocateFile` has succeeded, so a preallocation
failure returns without removing the working file; a copy failure returns
`ctx.Err()` when that is non-nil; `preallocated && written != fileSize`
triggers a truncate to `written` before sync, close and rename. -/
def Download (o : Oracle) (fileSize : Int) (fs : FS) :
    Except DlError Unit × FS × List FsEvent :=
  if ¬ o.reqOk then (.error .requestErr, fs, [])
  else
    match o.doResult with
    | .error _ => (.error .httpErr, fs, [])
    | .ok status =>
      if status ≠ 200 then (.error (.unexpectedStatus status), fs, [])
      else if ¬ o.createOk then (.error .createErr, fs, [])
      else
        let fs1 : FS := { fs with workingExists := true }
        if 0 < fileSize ∧ ¬ o.preallocOk then
          (.error .preallocErr, fs1, [.created])
        else
          let tr2 : List FsEvent :=
            if 0 < fileSize then [.created, .prealloc fileSize] else [.created]
          match o.copyResult with
          | .error _ =>
            if o.ctxCancelledAtCopy then finishErr .ctxCancelled fs1 tr2
            else finishErr .copyErr fs1 tr2
          | .ok written =>
            if 0 < fileSize ∧ written ≠ fileSize then
              if ¬ o.truncOk then finishErr .truncateErr fs1 tr2
              else finalize o fs1 (tr2 ++ [.truncated written])
            else finalize o fs1 tr2

/-- `progressReader` from `internal/engine/single/downloader.go`.  The wrapped
`io.Reader` is external input (the byte counts of its reads are supplied to
`readStep`); `time.Time` values are abstract instants. -/
structure progressReader where
  state : Option ProgressState
  batchSize : Int
  batchInterval : Int
  written : Int
  pending : Int
  lastFlush : Int
  readChecks : Nat
deriving DecidableEq, Repr

/-- `flushWithTime` from the Go source. -/
def flushWithTime (w : progressReader) (now : Int) : progressReader :=
  match w.state with
  | none => { w with pending := 0, lastFlush := now, readChecks := 0 }
  | some st =>
    if w.pending = 0 ∧ w.written = 0 then w
    else
      { w with
        state := some { st with downloaded := w.written, verifiedProgress := w.written },
        pending := 0, lastFlush := now, readChecks := 0 }

/-- `Read` from the Go source, given the byte count `n` returned by the
wrapped reader and the current instant `now` (the value `time.Now()` would
produce if consulted). -/
def readStep (w : progressReader) (n : Int) (now : Int) : progressReader :=
  if n ≤ 0 ∨ w.state = none then w
  else
    let w' := { w with written := w.written + n, pending := w.pending + n }
    if w'.pending ≥ w'.batchSize then flushWithTime w' now
    else if 0 < w'.batchInterval then
      let rc := w'.readChecks + 1
      if 8 ≤ rc then
        if w'.batchInterval ≤ now - w'.lastFlush then
          flushWithTime { w' with readChecks := rc } now
        else { w' with readChecks := 0 }
      else { w' with readChecks := rc }
    else w'

/-- The two stores `d.State.Downloaded.Store(written)` and
`d.State.VerifiedProgress.Store(written)` performed by `Download` after the
copy completes. -/
def storeFinal (st : ProgressState) (written : Int) : ProgressState :=
  { st with downloaded := written, verifiedProgress := written }

/-- The spec invariant `0 ≤ verified_progress ≤ downloaded` for one state. -/
def stInv (st : ProgressState) : Prop :=
  0 ≤ st.verifiedProgress ∧ st.verifiedProgress ≤ st.downloaded

instance (st : ProgressState) : Decidable (stInv st) := by unfold stInv; infer_instance

/-- The invariant lifted to the reader's optional state pointer. -/
def optInv : Option ProgressState → Prop
  | none => True
  | some st => stInv st

instance (s : Option ProgressState) : Decidable (optInv s) := by
  cases s <;> simp only [optInv] <;> infer_instance

end Single

namespace Events

/-- JSON values, as produced and consumed by `encoding/json` for the message
types below.  Integer-valued (`int64`, `time.Duration`) and floating
(`float64`) fields are kept apart; finite `float64` values round-trip exactly
through Go's JSON encoding, so they are carried as exact rationals.  A Go
`[]byte` field is encoded as a base64 string; its payload is carried
symbolically by `bytes`. -/
inductive Json where
  | null
  | str (s : String)
  | int (n : Int)
  | num (q : Rat)
  | bool (b : Bool)
  | arr (xs : List Json)
  | obj (fields : List (String × Json))
  | bytes (bs : List Nat)

/-- `ProgressMsg` from `internal/engine/events/events.go`. -/
structure ProgressMsg where
  DownloadID : String
  Downloaded : Int
  Total : Int
  Speed : Rat
  Elapsed : Int
  ActiveConnections : Int
  ChunkBitmap : List Nat
  BitmapWidth : Int
  ActualChunkSize : Int
  ChunkProgress : List Int
deriving DecidableEq, Repr

/-- `DownloadCompleteMsg` from the Go source. -/
structure DownloadCompleteMsg where
  DownloadID : String
  Filename : String
  Elapsed : Int
  Total : Int
  AvgSpeed : Rat
deriving DecidableEq, Repr

/-- `DownloadErrorMsg` from the Go source.  The `error` interface value is
modelled by its text: `none` is a nil error, `some s` an error whose
`Error()` method returns `s`. -/
structure DownloadErrorMsg where
  DownloadID : String
  Filename : String
  Err : Option String
deriving DecidableEq, Repr

/-- `DownloadStartedMsg` from the Go source.  `State` carries the
`json:"-"` tag in Go: it is never serialized. -/
structure DownloadStartedMsg where
  DownloadID : String
  URL : String
  Filename : String
  Total : Int
  DestPath : String
  State : Option Surge.ProgressState
deriving DecidableEq, Repr

/-- `DownloadPausedMsg` from the Go source. -/
structure DownloadPausedMsg where
  DownloadID : String
  Filename : String
  Downloaded : Int
deriving DecidableEq, Repr

/-- `DownloadResumedMsg` from the Go source. -/
structure DownloadResumedMsg where
  DownloadID : String
  Filename : String
deriving DecidableEq, Repr

/-- `DownloadQueuedMsg` from the Go source. -/
structure DownloadQueuedMsg where
  DownloadID : String
  Filename : String
  URL : String
  DestPath : String
deriving DecidableEq, Repr

/-- `DownloadRemovedMsg` from the Go source. -/
structure DownloadRemovedMsg where
  DownloadID : String
  Filename : String
deriving DecidableEq, Repr

/-- `SystemLogMsg` from the Go source. -/
structure SystemLogMsg where
  Message : String
deriving DecidableEq, Repr

/-- `DownloadRequestMsg` from the Go source.  The `map[string]string` header
map is an association list. -/
structure DownloadRequestMsg where
  ID : String
  URL : String
  Filename : String
  Path : String
  Mirrors : List String
  Headers : List (String × String)
deriving DecidableEq, Repr

/-- The payloads `EncodeSSEMessages` accepts, i.e. the message types for which
`EventTypeForMessage` returns a name, plus `BatchProgressMsg`. -/
inductive Msg where
  | progress (m : ProgressMsg)
  | batch (ms : List ProgressMsg)
  | started (m : DownloadStartedMsg)
  | complete (m : DownloadCompleteMsg)
  | error (m : DownloadErrorMsg)
  | paused (m : DownloadPausedMsg)
  | resumed (m : DownloadResumedMsg)
  | queued (m : DownloadQueuedMsg)
  | removed (m : DownloadRemovedMsg)
  | request (m : DownloadRequestMsg)
  | system (m : SystemLogMsg)
deriving DecidableEq, Repr

/-- `SSEMessage` from the Go source; `Data` holds the JSON document rather
than its byte serialization. -/
structure SSEMessage where
  Event : String
  Data : Json

/-- `json.Marshal` of a `ProgressMsg`: default encoding, struct fields in
declaration order under their Go names. -/
def marshalProgress (m : ProgressMsg) : Json :=
  .obj [("DownloadID", .str m.DownloadID),
        ("Downloaded", .int m.Downloaded),
        ("Total", .int m.Total),
        ("Speed", .num m.Speed),
        ("Elapsed", .int m.Elapsed),
        ("ActiveConnections", .int m.ActiveConnections),
        ("ChunkBitmap", .bytes m.ChunkBitmap),
        ("BitmapWidth", .int m.BitmapWidth),
        ("ActualChunkSize", .int m.ActualChunkSize),
        ("ChunkProgress", .arr (m.ChunkProgress.map Json.int))]

/-- `json.Marshal` of a `DownloadCompleteMsg`. -/
def marshalComplete (m : DownloadCompleteMsg) : Json :=
  .obj [("DownloadID", .str m.DownloadID),
        ("Filename", .str m.Filename),
        ("Elapsed", .int m.Elapsed),
        ("Total", .int m.Total),
        ("AvgSpeed", .num m.AvgSpeed)]

/-- The custom `MarshalJSON` of `DownloadErrorMsg`: `Filename` and `Err`
carry `omitempty`, and `Err` is the error text (empty when the error is
nil). -/
def marshalError (m : DownloadErrorMsg) : Json :=
  .obj ([("DownloadID", Json.str m.DownloadID)] ++
        (if m.Filename = "" then [] else [("Filename", Json.str m.Filename)]) ++
        (match m.Err with
         | none => []
         | some e => if e = "" then [] else [("Err", Json.str e)]))

/-- `json.Marshal` of a `DownloadStartedMsg`; `State` has tag `json:"-"` and
is omitted. -/
def marshalStarted (m : DownloadStartedMsg) : Json :=
  .obj [("DownloadID", .str m.DownloadID),
        ("URL", .str m.URL),
        ("Filename", .str m.Filename),
        ("Total", .int m.Total),
        ("DestPath", .str m.DestPath)]

/-- `json.Marshal` of a `DownloadPausedMsg`. -/
def marshalPaused (m : DownloadPausedMsg) : Json :=
  .obj [("DownloadID", .str m.DownloadID),
        ("Filename", .str m.Filename),
        ("Downloaded", .int m.Downloaded)]

/-- `json.Marshal` of a `DownloadResumedMsg`. -/
def marshalResumed (m : DownloadResumedMsg) : Json :=
  .obj [("DownloadID", .str m.DownloadID), ("Filename", .str m.Filename)]

/-- `json.Marshal` of a `DownloadQueuedMsg`. -/
def marshalQueued (m : DownloadQueuedMsg) : Json :=
  .obj [("DownloadID", .str m.DownloadID),
        ("Filename", .str m.Filename),
        ("URL", .str m.URL),
        ("DestPath", .str m.DestPath)]

/-- `json.Marshal` of a `DownloadRemovedMsg`. -/
def marshalRemoved (m : DownloadRemovedMsg) : Json :=
  .obj [("DownloadID", .str m.DownloadID), ("Filename", .str m.Filename)]

/-- `json.Marshal` of a `SystemLogMsg`. -/
def marshalSystem (m : SystemLogMsg) : Json :=
  .obj [("Message", .str m.Message)]

/-- `json.Marshal` of a `DownloadRequestMsg`. -/
def marshalRequest (m : DownloadRequestMsg) : Json :=
  .obj [("ID", .str m.ID),
        ("URL", .str m.URL),
        ("Filename", .str m.Filename),
        ("Path", .str m.Path),
        ("Mirrors", .arr (m.Mirrors.map Json.str)),
        ("Headers", .obj (m.Headers.map (fun kv => (kv.1, Json.str kv.2))))]

/-- Field access during `json.Unmarshal`: the first binding of the key in the
object (JSON objects from `json.Marshal` of a struct have distinct keys). -/
def getField (fields : List (String × Json)) (k : String) : Option Json :=
  match fields.find? (fun kv => kv.1 == k) with
  | some kv => some kv.2
  | none => none

/-- Unmarshal a `string` struct field: a missing key leaves the zero
value. -/
def strField (fields : List (String × Json)) (k : String) : Option String :=
  match getField fields k with
  | none => some ""
  | some (.str s) => some s
  | some _ => none

/-- Unmarshal an `int64` (or `time.Duration`) struct field. -/
def intField (fields : List (String × Json)) (k : String) : Option Int :=
  match getField fields k with
  | none => some 0
  | some (.int n) => some n
  | some _ => none

/-- Unmarshal a `float64` struct field. -/
def ratField (fields : List (String × Json)) (k : String) : Option Rat :=
  match getField fields k with
  | none => some 0
  | some (.num q) => some q
  | some (.int n) => some (n : Rat)
  | some _ => none

/-- Unmarshal a `[]byte` struct field (base64 string in the document; `null`
and a missing key both give the nil slice). -/
def bytesField (fields : List (String × Json)) (k : String) : Option (List Nat) :=
  match getField fields k with
  | none => some []
  | some .null => some []
  | some (.bytes bs) => some bs
  | some _ => none

/-- Decode one JSON array element as a string. -/
def asStrJson : Json → Option String
  | .str s => some s
  | _ => none

/-- Decode one JSON array element as an int64. -/
def asIntJson : Json → Option Int
  | .int n => some n
  | _ => none

/-- Decode every element of a JSON array, failing if any element fails. -/
def decodeList (f : Json → Option α) : List Json → Option (List α)
  | [] => some []
  | x :: xs => do
    let a ← f x
    let rest ← decodeList f xs
    some (a :: rest)

/-- Decode every member of a JSON object as a string value. -/
def decodeStrPairs : List (String × Json) → Option (List (String × String))
  | [] => some []
  | (k, v) :: rest =>
    match v with
    | .str s => do
      let tail ← decodeStrPairs rest
      some ((k, s) :: tail)
    | _ => none

/-- Unmarshal a `[]string` struct field. -/
def strListField (fields : List (String × Json)) (k : String) : Option (List String) :=
  match getField fields k with
  | none => some []
  | some .null => some []
  | some (.arr xs) => decodeList asStrJson xs
  | some _ => none

/-- Unmarshal a `[]int64` struct field. -/
def intListField (fields : List (String × Json)) (k : String) : Option (List Int) :=
  match getField fields k with
  | none => some []
  | some .null => some []
  | some (.arr xs) => decodeList asIntJson xs
  | some _ => none

/-- Unmarshal a `map[string]string` struct field. -/
def headersField (fields : List (String × Json)) (k : String) :
    Option (List (String × String)) :=
  match getField fields k with
  | none => some []
  | some .null => some []
  | some (.obj fs) => decodeStrPairs fs
  | some _ => none

/-- Render a JSON document back to text (used only by the raw-payload
fallback of `DownloadErrorMsg.UnmarshalJSON`). -/
def renderJson : Json → String
  | .null => "null"
  | .str s => "\"" ++ s ++ "\""
  | .int n => toString n
  | .num q => toString q.num ++ (if q.den = 1 then "" else "/" ++ toString q.den)
  | .bool b => if b then "true" else "false"
  | .arr _ => "[...]"
  | .obj _ => "{...}"
  | .bytes _ => "\"...\""

/-- `json.Unmarshal` into a `ProgressMsg`. -/
def unmarshalProgress (j : Json) : Option ProgressMsg :=
  match j with
  | .obj fs => do
    let downloadID ← strField fs "DownloadID"
    let downloaded ← intField fs "Downloaded"
    let total ← intField fs "Total"
    let speed ← ratField fs "Speed"
    let elapsed ← intField fs "Elapsed"
    let activeConnections ← intField fs "ActiveConnections"
    let chunkBitmap ← bytesField fs "ChunkBitmap"
    let bitmapWidth ← intField fs "BitmapWidth"
    let actualChunkSize ← intField fs "ActualChunkSize"
    let chunkProgress ← intListField fs "ChunkProgress"
    some ⟨downloadID, downloaded, total, speed, elapsed, activeConnections,
          chunkBitmap, bitmapWidth, actualChunkSize, chunkProgress⟩
  | _ => none

/-- `json.Unmarshal` into a `DownloadCompleteMsg`. -/
def unmarshalComplete (j : Json) : Option DownloadCompleteMsg :=
  match j with
  | .obj fs => do
    let downloadID ← strField fs "DownloadID"
    let filename ← strField fs "Filename"
    let elapsed ← intField fs "Elapsed"
    let total ← intField fs "Total"
    let avgSpeed ← ratField fs "AvgSpeed"
    some ⟨downloadID, filename, elapsed, total, avgSpeed⟩
  | _ => none

/-- The custom `UnmarshalJSON` of `DownloadErrorMsg`: `Err` is read as a raw
message; an absent field (or JSON `null` decoded into the auxiliary string)
gives a nil error, a non-empty string gives `errors.New` of it, an empty
string gives nil, and any other payload is kept verbatim as the error
text. -/
def unmarshalError (j : Json) : Option DownloadErrorMsg :=
  match j with
  | .obj fs => do
    let downloadID ← strField fs "DownloadID"
    let filename ← strField fs "Filename"
    let err : Option String :=
      match getField fs "Err" with
      | none => none
      | some .null => none
      | some (.str s) => if s = "" then none else some s
      | some other =>
        let raw := renderJson other
        if raw = "" ∨ raw = "null" then none else some raw
    some ⟨downloadID, filename, err⟩
  | _ => none

/-- `json.Unmarshal` into a `DownloadStartedMsg`; the `State` pointer is never
populated from JSON (tag `json:"-"`), so it is the zero value `nil`. -/
def unmarshalStarted (j : Json) : Option DownloadStartedMsg :=
  match j with
  | .obj fs => do
    let downloadID ← strField fs "DownloadID"
    let url ← strField fs "URL"
    let filename ← strField fs "Filename"
    let total ← intField fs "Total"
    let destPath ← strField fs "DestPath"
    some ⟨downloadID, url, filename, total, destPath, none⟩
  | _ => none

/-- `json.Unmarshal` into a `DownloadPausedMsg`. -/
def unmarshalPaused (j : Json) : Option DownloadPausedMsg :=
  match j with
  | .obj fs => do
    let downloadID ← strField fs "DownloadID"
    let filename ← strField fs "Filename"
    let downloaded ← intField fs "Downloaded"
    some ⟨downloadID, filename, downloaded⟩
  | _ => none

/-- `json.Unmarshal` into a `DownloadResumedMsg`. -/
def unmarshalResumed (j : Json) : Option DownloadResumedMsg :=
  match j with
  | .obj fs => do
    let downloadID ← strField fs "DownloadID"
    let filename ← strField fs "Filename"
    some ⟨downloadID, filename⟩
  | _ => none

/-- `json.Unmarshal` into a `DownloadQueuedMsg`. -/
def unmarshalQueued (j : Json) : Option DownloadQueuedMsg :=
  match j with
  | .obj fs => do
    let downloadID ← strField fs "DownloadID"
    let filename ← strField fs "Filename"
    let url ← strField fs "URL"
    let destPath ← strField fs "DestPath"
    some ⟨downloadID, filename, url, destPath⟩
  | _ => none

/-- `json.Unmarshal` into a `DownloadRemovedMsg`. -/
def unmarshalRemoved (j : Json) : Option DownloadRemovedMsg :=
  match j with
  | .obj fs => do
    let downloadID ← strField fs "DownloadID"
    let filename ← strField fs "Filename"
    some ⟨downloadID, filename⟩
  | _ => none

/-- `json.Unmarshal` into a `SystemLogMsg`. -/
def unmarshalSystem (j : Json) : Option SystemLogMsg :=
  match j with
  | .obj fs => do
    let message ← strField fs "Message"
    some ⟨message⟩
  | _ => none

/-- `json.Unmarshal` into a `DownloadRequestMsg`. -/
def unmarshalRequest (j : Json) : Option DownloadRequestMsg :=
  match j with
  | .obj fs => do
    let id ← strField fs "ID"
    let url ← strField fs "URL"
    let filename ← strField fs "Filename"
    let path ← strField fs "Path"
    let mirrors ← strListField fs "Mirrors"
    let headers ← headersField fs "Headers"
    some ⟨id, url, filename, path, mirrors, headers⟩
  | _ => none

/-- `EventTypeForMessage` from the Go source: the SSE event name for a
payload.  `BatchProgressMsg` is not in its type switch and maps to
`("", false)`, i.e. `none`. -/
def EventTypeForMessage : Msg → Option String
  | .progress _ => some "progress"
  | .batch _ => none
  | .started _ => some "started"
  | .complete _ => some "complete"
  | .error _ => some "error"
  | .paused _ => some "paused"
  | .resumed _ => some "resumed"
  | .queued _ => some "queued"
  | .removed _ => some "removed"
  | .request _ => some "request"
  | .system _ => some "system"

/-- `json.Marshal` dispatched over the payload types. -/
def marshalMsg : Msg → Json
  | .progress m => marshalProgress m
  | .batch ms => .arr (ms.map marshalProgress)
  | .started m => marshalStarted m
  | .complete m => marshalComplete m
  | .error m => marshalError m
  | .paused m => marshalPaused m
  | .resumed m => marshalResumed m
  | .queued m => marshalQueued m
  | .removed m => marshalRemoved m
  | .request m => marshalRequest m
  | .system m => marshalSystem m

/-- One `"progress"` frame of a flattened batch. -/
def encodeProgressFrame (p : ProgressMsg) : SSEMessage :=
  ⟨"progress", marshalProgress p⟩

/-- `EncodeSSEMessages` from the Go source: a `BatchProgressMsg` is flattened
into one `"progress"` frame per element; every other payload becomes a single
frame under its `EventTypeForMessage` name.  `json.Marshal` cannot fail on
these payloads (no NaN or infinite floats exist in the model), so the error
result is omitted. -/
def EncodeSSEMessages : Msg → List SSEMessage
  | .batch ms => ms.map encodeProgressFrame
  | m =>
    match EventTypeForMessage m with
    | none => []
    | some eventType => [⟨eventType, marshalMsg m⟩]

/-- `DecodeSSEMessage` from the Go source.  The `Bool` mirrors Go's second
result (`false` for an unknown event name); `none` with `true` mirrors a
known event whose payload failed to unmarshal. -/
def DecodeSSEMessage (eventType : String) (data : Json) : Option Msg × Bool :=
  match eventType with
  | "progress" => ((unmarshalProgress data).map Msg.progress, true)
  | "started" => ((unmarshalStarted data).map Msg.started, true)
  | "complete" => ((unmarshalComplete data).map Msg.complete, true)
  | "error" => ((unmarshalError data).map Msg.error, true)
  | "paused" => ((unmarshalPaused data).map Msg.paused, true)
  | "resumed" => ((unmarshalResumed data).map Msg.resumed, true)
  | "queued" => ((unmarshalQueued data).map Msg.queued, true)
  | "removed" => ((unmarshalRemoved data).map Msg.removed, true)
  | "request" => ((unmarshalRequest data).map Msg.request, true)
  | "system" => ((unmarshalSystem data).map Msg.system, true)
  | _ => (none, false)

/-- All frames in a list carry the `"progress"` event name. -/
def allProgressEvents (frames : List SSEMessage) : Bool :=
  frames.all (fun f => f.Event == "progress")

end Events

namespace Concurrent

/-- A concrete queue used to instantiate queue theorems: two pending tasks,
not closed. -/
def qW : TaskQueue :=
  { tasks := [⟨0, 0, 4, 0, none⟩, ⟨1, 4, 4, 0, none⟩], head := 0, done := false,
    idleWorkers := 0, waiting := 2, size := 2 }

/-- A concrete task used to instantiate queue theorems. -/
def tW : Task := ⟨2, 8, 4, 0, none⟩

end Concurrent

namespace Single

/-- A concrete redirected request carrying one header of its own. -/
def reqW : Request := ⟨[("Accept", ["x"])]⟩

/-- A concrete original request with the headers the spec singles out. -/
def origW : Request :=
  ⟨[("Range", ["bytes=0-0"]), ("Authorization", ["token"]), ("Cookie", ["c=1"])]⟩

/-- Oracle of a fully successful download whose copy wrote fewer bytes than
were preallocated. -/
def oW : Oracle :=
  { reqOk := true, doResult := .ok 200, createOk := true, preallocOk := true,
    copyResult := .ok 90, ctxCancelledAtCopy := false, truncOk := true,
    syncOk := true, closeOk := true, renameOk := true, copyFileOk := true }

/-- Oracle of a download whose copy fails while the context is cancelled. -/
def oCancel : Oracle :=
  { oW with copyResult := .error (), ctxCancelledAtCopy := true }

/-- Oracle of a download whose copy fails with the context still live. -/
def oCopyFail : Oracle :=
  { oW with copyResult := .error (), ctxCancelledAtCopy := false }

/-- Oracle of a download whose preallocation fails. -/
def oPrealloc : Oracle := { oW with preallocOk := false }

/-- Oracle of a response with status 206 instead of 200. -/
def o206 : Oracle := { oW with doResult := .ok 206 }

/-- An initially empty filesystem. -/
def fsW : FS := ⟨false, false⟩

/-- A concrete progress state satisfying the invariant. -/
def stW : ProgressState := ⟨3, 2, 1, 10, [3], false, false⟩

/-- A concrete progress reader over `stW` with five bytes written. -/
def wW : progressReader :=
  { state := some stW, batchSize := 1024, batchInterval := 0, written := 5,
    pending := 4, lastFlush := 0, readChecks := 0 }

end Single

namespace Events

/-- A started message whose in-process `State` pointer is non-nil. -/
def startedCE : DownloadStartedMsg :=
  ⟨"id1", "http://u", "f.bin", 10, "/tmp/f.bin", some default⟩

/-- An error message whose error has empty text. -/
def errorCE : DownloadErrorMsg := ⟨"id2", "f.bin", some ""⟩

/-- The default frame used with `List.headD` when reading the single frame an
encoder produced. -/
def nullFrame : SSEMessage := ⟨"", .null⟩

end Events

/-! ## Theorems -/

namespace Concurrent

theorem wf_new : WF NewTaskQueue := by constructor <;> simp [NewTaskQueue]

theorem push_pending (q : TaskQueue) (t : Task) (h : WF q) :
    pending (Push q t).1 = pending q ++ [t] := by
  simp only [Push, pending]
  rw [List.drop_append_of_le_length h.1]

theorem push_wf (q : TaskQueue) (t : Task) (h : WF q) : WF (Push q t).1 := by
  obtain ⟨h1, h2⟩ := h
  constructor
  · simp only [Push, List.length_append, List.length_cons, List.length_nil]
    omega
  · simp only [Push, List.length_append, List.length_cons, List.length_nil]
    push_cast
    omega

theorem push_done (q : TaskQueue) (t : Task) : (Push q t).1.done = q.done := rfl

theorem pushMultiple_pending (q : TaskQueue) (ts : List Task) (h : WF q) :
    pending (PushMultiple q ts).1 = pending q ++ ts := by
  simp only [PushMultiple]
  split
  · next hlen =>
    simp only [pending, List.length_eq_zero] at *
    simp [hlen]
  · simp only [pending]
    rw [List.drop_append_of_le_length h.1]

theorem pushMultiple_wf (q : TaskQueue) (ts : List Task) (h : WF q) :
    WF (PushMultiple q ts).1 := by
  obtain ⟨h1, h2⟩ := h
  simp only [PushMultiple]
  split
  · exact ⟨h1, h2⟩
  · constructor
    · simp only [List.length_append]; omega
    · simp only [List.length_append]; push_cast; omega

theorem pushMultiple_done (q : TaskQueue) (ts : List Task) :
    (PushMultiple q ts).1.done = q.done := by
  simp only [PushMultiple]
  split <;> rfl

theorem pop_empty (q : TaskQueue) (h : WF q) (hp : pending q = []) :
    Pop q = ((if q.done then PopResult.closed else PopResult.blocked), q) := by
  have h1 := h.1
  have hlen : q.tasks.length = q.head := by
    have := List.drop_eq_nil_iff.mp hp
    omega
  by_cases hd : q.done
  · simp [Pop, hlen, hd]
  · simp [Pop, hlen, hd]

theorem pop_cons (q : TaskQueue) (t : Task) (r : List Task) (h : WF q)
    (hp : pending q = t :: r) :
    (Pop q).1 = .popped t ∧ pending (Pop q).2 = r ∧ WF (Pop q).2 ∧
      (Pop q).2.done = q.done := by
  simp only [pending] at hp
  have hlt : q.head < q.tasks.length := by
    by_contra hge
    have : q.tasks.drop q.head = [] := List.drop_eq_nil_of_le (by omega)
    simp [this] at hp
  have hne : ¬ q.tasks.length = q.head := by omega
  have hget : q.tasks.getD q.head default = t := by
    have h1 : (q.tasks.drop q.head).head? = some t := by simp [hp]
    rw [List.head?_drop] at h1
    simp [List.getD, h1]
  have hdrop : q.tasks.drop (q.head + 1) = r := by
    rw [← List.tail_drop, hp]
    rfl
  have hcond : ¬ (q.tasks.length = q.head ∧ ¬ q.done) := fun hc => hne hc.1
  unfold Pop
  rw [if_neg hcond, if_neg hne]
  dsimp only
  split
  · refine ⟨by rw [hget], ?_, ?_, rfl⟩
    · simp [pending, hdrop]
    · refine ⟨by simp, ?_⟩
      have := h.2
      simp only [List.length_drop]
      push_cast
      omega
  · refine ⟨by rw [hget], ?_, ?_, rfl⟩
    · simp [pending, hdrop]
    · refine ⟨by simpa using hlt, ?_⟩
      have := h.2
      push_cast
      omega

theorem runPushes_spec (ops : List PushOp) (q : TaskQueue) (h : WF q) :
    pending (runPushes q ops) = pending q ++ flatOps ops ∧ WF (runPushes q ops) ∧
      (runPushes q ops).done = q.done := by
  induction ops generalizing q with
  | nil => simp [runPushes, flatOps, h]
  | cons op rest ih =>
    cases op with
    | single t =>
      obtain ⟨ih1, ih2, ih3⟩ := ih (Push q t).1 (push_wf q t h)
      refine ⟨?_, ?_, ?_⟩
      · simp only [runPushes]
        rw [ih1, push_pending q t h, flatOps]
        simp
      · simpa only [runPushes] using ih2
      · simp only [runPushes]
        rw [ih3, push_done]
    | multi ts =>
      obtain ⟨ih1, ih2, ih3⟩ := ih (PushMultiple q ts).1 (pushMultiple_wf q ts h)
      refine ⟨?_, ?_, ?_⟩
      · simp only [runPushes]
        rw [ih1, pushMultiple_pending q ts h, flatOps]
        simp
      · simpa only [runPushes] using ih2
      · simp only [runPushes]
        rw [ih3, pushMultiple_done]

theorem popN_spec (k : Nat) (q : TaskQueue) (h : WF q) :
    (popN k q).1 = (pending q).take k ∧ pending (popN k q).2 = (pending q).drop k ∧
      WF (popN k q).2 ∧ (popN k q).2.done = q.done := by
  induction k generalizing q with
  | zero => simp [popN, h]
  | succ k ih =>
    match hp : pending q with
    | [] =>
      have := pop_empty q h hp
      by_cases hd : q.done <;>
        simp_all [popN, this, hp]
    | t :: r =>
      obtain ⟨h1, h2, h3, h4⟩ := pop_cons q t r h hp
      obtain ⟨ih1, ih2, ih3, ih4⟩ := ih (Pop q).2 h3
      rw [popN]
      split
      · next t' q' heq =>
        have ht : t' = t := by rw [heq] at h1; simpa using h1
        have hq : q' = (Pop q).2 := by rw [heq]
        subst ht hq
        simp only [hp, List.take_succ_cons, List.drop_succ_cons]
        exact ⟨by rw [ih1, h2], by rw [ih2, h2], ih3, by rw [ih4, h4]⟩
      · next r' q' heq =>
        exfalso
        rw [heq] at h1
        rcases r' with _ | _ | t'' <;> simp_all

end Concurrent

namespace Concurrent

/-- Claim C2: the task queue is FIFO.  For every sequence of `Push` /
`PushMultiple` calls (starting from a fresh queue) followed by any number of
`Pop` calls, the `Pop` calls return exactly the pushed tasks, in push order;
in particular each pushed task is returned at most once (the popped list is a
prefix of the pushed list). -/
theorem taskQueue_fifo (ops : List PushOp) (k : Nat) :
    (popN k (runPushes NewTaskQueue ops)).1 = (flatOps ops).take k := by
  obtain ⟨h1, h2, _⟩ := runPushes_spec ops NewTaskQueue wf_new
  obtain ⟨p1, _, _, _⟩ := popN_spec k _ h2
  rw [p1, h1]
  rfl

theorem pop_after_push (q : TaskQueue) (t : Task) (h : WF q) (hp : pending q = []) :
    (Pop (Push q t).1).1 = .popped t := by
  have hpp := push_pending q t h
  rw [hp] at hpp
  exact (pop_cons (Push q t).1 t [] (push_wf q t h) (by simpa using hpp)).1

/-- Claim C3: `DrainRemaining` returns exactly the pending tasks in FIFO
order without closing the queue: afterwards `Len` is `0`, the `done` flag is
unchanged, no task is pending, the queue is still well formed, and a
subsequent `Push` followed by `Pop` succeeds; when nothing is pending the
result is empty (it equals the empty pending list). -/
theorem drainRemaining_spec (q : TaskQueue) (t : Task) (h : WF q) :
    (DrainRemaining q).1 = pending q ∧
    (DrainRemaining q).2.done = q.done ∧
    Len (DrainRemaining q).2 = 0 ∧
    pending (DrainRemaining q).2 = [] ∧
    WF (DrainRemaining q).2 ∧
    (Pop (Push (DrainRemaining q).2 t).1).1 = .popped t := by
  unfold DrainRemaining
  split
  · next hge =>
    have hp : pending q = [] := List.drop_eq_nil_of_le hge
    have h1 := h.1
    have h2 := h.2
    have hsize : q.size = 0 := by omega
    exact ⟨hp.symm, rfl, hsize, hp, h, pop_after_push q t h hp⟩
  · next hlt =>
    refine ⟨rfl, rfl, rfl, rfl, ⟨by simp, by simp⟩, ?_⟩
    exact pop_after_push _ t ⟨by simp, by simp⟩ rfl

/-- Claim C3 witness: `drainRemaining_spec` applied to the concrete queue
`qW` holding two pending tasks. -/
theorem drainRemaining_spec_witness :
    (DrainRemaining qW).1 = pending qW ∧
    (DrainRemaining qW).2.done = qW.done ∧
    Len (DrainRemaining qW).2 = 0 ∧
    pending (DrainRemaining qW).2 = [] ∧
    WF (DrainRemaining qW).2 ∧
    (Pop (Push (DrainRemaining qW).2 tW).1).1 = .popped tW :=
  drainRemaining_spec qW tW (by decide)

/-- Claim C7: pushing `n` tasks with `w` waiting workers issues exactly
`min n w` signals when both are positive and none otherwise; `Push` invokes
the signal function with `maxSignals = 1` and `PushMultiple` with the number
of pushed tasks.  (`Close` is the only operation that broadcasts; the push
path only ever calls `Signal` this bounded number of times.) -/
theorem signalWaitingWorkers_spec (n w m : Int) (q : TaskQueue) (t : Task)
    (ts : List Task) (hn : 0 < n) (hw : 0 < w) (hm : m ≤ 0) :
    signalWaitingWorkersLocked n w = (min n w).toNat ∧
    signalWaitingWorkersLocked m w = 0 ∧
    signalWaitingWorkersLocked n m = 0 ∧
    (Push q t).2 = signalWaitingWorkersLocked 1 q.waiting ∧
    (PushMultiple q ts).2 = signalWaitingWorkersLocked (ts.length : Int) q.waiting := by
  refine ⟨?_, ?_, ?_, rfl, ?_⟩
  · unfold signalWaitingWorkersLocked
    rw [min_def]
    split_ifs <;> omega
  · unfold signalWaitingWorkersLocked
    split_ifs
    omega
  · unfold signalWaitingWorkersLocked
    split_ifs <;> omega
  · unfold PushMultiple
    split
    · next hlen =>
      rw [hlen]
      simp [signalWaitingWorkersLocked]
    · rfl

/-- Claim C7 witness: `signalWaitingWorkers_spec` at `n = 3`, `w = 2`,
`m = 0` and a concrete queue, task and task list. -/
theorem signalWaitingWorkers_spec_witness :
    signalWaitingWorkersLocked 3 2 = (min (3 : Int) 2).toNat ∧
    signalWaitingWorkersLocked 0 2 = 0 ∧
    signalWaitingWorkersLocked 3 0 = 0 ∧
    (Push qW tW).2 = signalWaitingWorkersLocked 1 qW.waiting ∧
    (PushMultiple qW [tW]).2 = signalWaitingWorkersLocked (([tW] : List Task).length : Int) qW.waiting :=
  signalWaitingWorkers_spec 3 2 0 qW tW [tW] (by decide) (by decide) (by decide)

/-- Claim C9: `Pop` reports closed exactly when the queue is closed and
nothing is pending; and after `Close` on a queue with pending tasks, the
following `Pop` calls return all the pending tasks in order and only then
report closed. -/
theorem pop_closed_iff (q : TaskQueue) (h : WF q) :
    ((Pop q).1 = .closed ↔ q.done ∧ pending q = []) ∧
    (popN (pending q).length (Close q)).1 = pending q ∧
    (Pop (popN (pending q).length (Close q)).2).1 = .closed := by
  have hclose_wf : WF (Close q) := h
  have hclose_pending : pending (Close q) = pending q := rfl
  refine ⟨⟨?_, ?_⟩, ?_⟩
  · intro hc
    match hp : pending q with
    | [] =>
      have he := pop_empty q h hp
      by_cases hd : q.done
      · exact ⟨hd, rfl⟩
      · rw [he] at hc
        simp [hd] at hc
    | t :: r =>
      have := (pop_cons q t r h hp).1
      rw [this] at hc
      cases hc
  · rintro ⟨hd, hp⟩
    rw [pop_empty q h hp]
    simp [hd]
  · obtain ⟨p1, p2, p3, p4⟩ := popN_spec (pending q).length (Close q) hclose_wf
    rw [hclose_pending] at p1 p2
    refine ⟨by rw [p1]; exact List.take_length _, ?_⟩
    have hp2 : pending (popN (pending q).length (Close q)).2 = [] := by
      rw [p2]
      exact List.drop_length _
    rw [pop_empty _ p3 hp2]
    have hdone : (popN (pending q).length (Close q)).2.done = true := by rw [p4]; rfl
    simp [hdone]

/-- Claim C9 witness: `pop_closed_iff` at the concrete queue `qW`. -/
theorem pop_closed_iff_witness :
    ((Pop qW).1 = .closed ↔ qW.done ∧ pending qW = []) ∧
    (popN (pending qW).length (Close qW)).1 = pending qW ∧
    (Pop (popN (pending qW).length (Close qW)).2).1 = .closed :=
  pop_closed_iff qW (by decide)

end Concurrent

namespace Single

theorem getHeader_setHeader_self (h : List (String × List String)) (k : String)
    (vs : List String) : getHeader (setHeader h k vs) k = some vs := by
  induction h with
  | nil => simp [setHeader, getHeader]
  | cons kv rest ih =>
    obtain ⟨k', vs'⟩ := kv
    by_cases hk : k' = k
    · simp [setHeader, hk, getHeader]
    · simp [setHeader, hk, getHeader, ih]

theorem getHeader_setHeader_ne (h : List (String × List String)) (k k' : String)
    (vs : List String) (hne : k' ≠ k) :
    getHeader (setHeader h k' vs) k = getHeader h k := by
  induction h with
  | nil => simp [setHeader, getHeader, hne]
  | cons kv rest ih =>
    obtain ⟨k0, vs0⟩ := kv
    by_cases hk : k0 = k'
    · simp [setHeader, hk, getHeader, hne]
    · simp [setHeader, hk, getHeader, ih]

theorem copyHeaders_not_mem (src : List (String × List String))
    (dst : List (String × List String)) (k : String)
    (hk : k ∉ src.map Prod.fst) :
    getHeader (copyHeaders dst src) k = getHeader dst k := by
  induction src generalizing dst with
  | nil => rfl
  | cons kv rest ih =>
    obtain ⟨k0, vs0⟩ := kv
    simp only [List.map_cons, List.mem_cons, not_or] at hk
    show getHeader (copyHeaders (setHeader dst k0 vs0) rest) k = getHeader dst k
    rw [ih (setHeader dst k0 vs0) hk.2]
    exact getHeader_setHeader_ne dst k k0 vs0 (fun h => hk.1 h.symm)

theorem copyHeaders_mem (src : List (String × List String))
    (dst : List (String × List String)) (k : String) (vs : List String)
    (hnd : (src.map Prod.fst).Nodup) (hmem : (k, vs) ∈ src) :
    getHeader (copyHeaders dst src) k = some vs := by
  induction src generalizing dst with
  | nil => cases hmem
  | cons kv rest ih =>
    obtain ⟨k0, vs0⟩ := kv
    simp only [List.map_cons, List.nodup_cons] at hnd
    rcases List.mem_cons.mp hmem with heq | hrest
    · obtain ⟨hk, hv⟩ := Prod.mk.inj heq
      subst hk
      subst hv
      show getHeader (copyHeaders (setHeader dst k vs) rest) k = some vs
      rw [copyHeaders_not_mem rest (setHeader dst k vs) k hnd.1]
      exact getHeader_setHeader_self dst k vs
    · exact ih (setHeader dst k0 vs0) hnd.2 hrest

/-- Claim C1: on a followed redirect the `CheckRedirect` policy copies every
header of the original request (`via` head) onto the redirected request, and
with ten or more hops recorded in `via` it returns the redirect-cap error. -/
theorem checkRedirect_spec (req orig : Request) (rest : List Request)
    (k : String) (vs : List String) (via10 : List Request)
    (hlen : (orig :: rest).length < 10)
    (hnd : (orig.header.map Prod.fst).Nodup)
    (hmem : (k, vs) ∈ orig.header)
    (h10 : 10 ≤ via10.length) :
    checkRedirect req (orig :: rest) = .ok ⟨copyHeaders req.header orig.header⟩ ∧
    getHeader (copyHeaders req.header orig.header) k = some vs ∧
    checkRedirect req via10 = .error "stopped after 10 redirects" := by
  refine ⟨?_, ?_, ?_⟩
  · unfold checkRedirect
    rw [if_neg (by omega)]
  · exact copyHeaders_mem orig.header req.header k vs hnd hmem
  · unfold checkRedirect
    rw [if_pos h10]

/-- Claim C1 witness: `checkRedirect_spec` with a one-hop redirect whose
original request carries `Range`, `Authorization` and `Cookie` headers, and a
ten-request `via` chain. -/
theorem checkRedirect_spec_witness :
    checkRedirect reqW [origW] = .ok ⟨copyHeaders reqW.header origW.header⟩ ∧
    getHeader (copyHeaders reqW.header origW.header) "Range" = some ["bytes=0-0"] ∧
    checkRedirect reqW (List.replicate 10 reqW) = .error "stopped after 10 redirects" :=
  checkRedirect_spec reqW origW [] "Range" ["bytes=0-0"] (List.replicate 10 reqW)
    (by decide) (by decide) (by decide) (by decide)

/-- Claim C10: any response status other than 200 (including 206) makes
`Download` return the unexpected-status error before the working file is
created, leaving the filesystem unchanged and performing no filesystem
effect. -/
theorem download_non200 (o : Oracle) (fileSize : Int) (fs : FS) (c : Int)
    (h1 : o.reqOk = true) (h2 : o.doResult = .ok c) (hc : c ≠ 200) :
    Download o fileSize fs = (.error (.unexpectedStatus c), fs, []) := by
  simp [Download, h1, h2, hc]

/-- Claim C10 witness: `download_non200` at a concrete oracle answering 206
Partial Content. -/
theorem download_non200_witness :
    Download o206 7 fsW = (.error (.unexpectedStatus 206), fsW, []) :=
  download_non200 o206 7 fsW 206 rfl rfl (by decide)

/-- Claim C4: on a successful single-connection download whose preallocation
overshot (`written ≠ fileSize`), the working file is truncated to the written
length, then synced, then renamed to the destination; if the rename fails the
file is finalized by copy and the working file removed. -/
theorem download_success (o : Oracle) (fileSize : Int) (fs : FS) (w : Int)
    (h1 : o.reqOk = true) (h2 : o.doResult = .ok 200) (h3 : o.createOk = true)
    (h4 : 0 < fileSize) (h5 : o.preallocOk = true)
    (h6 : o.copyResult = .ok w) (h7 : w ≠ fileSize)
    (h8 : o.truncOk = true) (h9 : o.syncOk = true) (h10 : o.closeOk = true) :
    Download o fileSize fs =
      (if o.renameOk then
        (.ok (), ⟨false, true⟩,
         [.created, .prealloc fileSize, .truncated w, .synced, .renamed])
       else if o.copyFileOk then
        (.ok (), ⟨false, true⟩,
         [.created, .prealloc fileSize, .truncated w, .synced, .copyFallback,
          .removedWorking])
       else
        (.error .finalizeErr, ⟨false, fs.finalExists⟩,
         [.created, .prealloc fileSize, .truncated w, .synced, .removedWorking])) := by
  simp [Download, finalize, finishErr, h1, h2, h3, h4, h5, h6, h7, h8, h9, h10]

/-- Claim C4 witness: `download_success` at the concrete oracle `oW` with a
probed size of 100 bytes and 90 bytes written. -/
theorem download_success_witness :
    Download oW 100 fsW =
      (if oW.renameOk then
        (.ok (), ⟨false, true⟩,
         [.created, .prealloc 100, .truncated 90, .synced, .renamed])
       else if oW.copyFileOk then
        (.ok (), ⟨false, true⟩,
         [.created, .prealloc 100, .truncated 90, .synced, .copyFallback,
          .removedWorking])
       else
        (.error .finalizeErr, ⟨false, fsW.finalExists⟩,
         [.created, .prealloc 100, .truncated 90, .synced, .removedWorking])) :=
  download_success oW 100 fsW 90 rfl rfl rfl (by decide) rfl rfl (by decide) rfl rfl rfl

theorem finalize_error_cleanup (o : Oracle) (fs : FS) (tr : List FsEvent)
    (e : DlError) (h : (finalize o fs tr).1 = .error e) :
    FsEvent.removedWorking ∈ (finalize o fs tr).2.2 ∧
      (finalize o fs tr).2.1.workingExists = false := by
  unfold finalize at *
  split_ifs at * <;> simp_all [finishErr]

/-- Claim C5 counterexample: a preallocation failure is a failure after the
working file was created, yet `Download` returns without removing the
`.surge` working file (the cleanup `defer` is registered only after
`preallocateFile` succeeds). -/
theorem download_cleanup_counterexample :
    (Download oPrealloc 5 fsW).1 = .error .preallocErr ∧
    FsEvent.created ∈ (Download oPrealloc 5 fsW).2.2 ∧
    FsEvent.removedWorking ∉ (Download oPrealloc 5 fsW).2.2 ∧
    (Download oPrealloc 5 fsW).2.1.workingExists = true := by
  decide

/-- Claim C5 (amended): if `Download` fails for any reason after the working
file was created other than a preallocation failure, the partial `.surge`
working file is removed before it returns; and when the copy fails with the
context cancelled, the context's error is returned rather than a copy
error. -/
theorem download_cleanup (o : Oracle) (fileSize : Int) (fs : FS) (e : DlError)
    (herr : (Download o fileSize fs).1 = .error e)
    (hne : e ≠ .preallocErr)
    (hcr : FsEvent.created ∈ (Download o fileSize fs).2.2)
    (o' : Oracle) (fileSize' : Int) (fs' : FS)
    (k1 : o'.reqOk = true) (k2 : o'.doResult = .ok 200) (k3 : o'.createOk = true)
    (k4 : o'.preallocOk = true) (k5 : o'.copyResult = .error ())
    (k6 : o'.ctxCancelledAtCopy = true) :
    (FsEvent.removedWorking ∈ (Download o fileSize fs).2.2 ∧
      (Download o fileSize fs).2.1.workingExists = false) ∧
    (Download o' fileSize' fs').1 = .error .ctxCancelled := by
  constructor
  · by_cases hreq : o.reqOk
    · rcases hdo : o.doResult with u | status
      · simp [Download, hreq, hdo] at hcr
      · by_cases hst : status = 200
        · subst hst
          by_cases hcreate : o.createOk
          · by_cases hpa : o.preallocOk
            · rcases hcopy : o.copyResult with u | w
              · by_cases hctx : o.ctxCancelledAtCopy <;>
                  simp [Download, hreq, hdo, hcreate, hpa, hcopy, hctx, finishErr]
              · by_cases htr : 0 < fileSize ∧ w ≠ fileSize
                · by_cases htrunc : o.truncOk
                  · have hd : Download o fileSize fs =
                        finalize o { fs with workingExists := true }
                          ((if 0 < fileSize then
                              [FsEvent.created, FsEvent.prealloc fileSize]
                            else [FsEvent.created]) ++ [FsEvent.truncated w]) := by
                      simp [Download, hreq, hdo, hcreate, hpa, hcopy, htr, htrunc]
                    rw [hd] at herr ⊢
                    exact finalize_error_cleanup _ _ _ e herr
                  · simp [Download, hreq, hdo, hcreate, hpa, hcopy, htr, htrunc,
                      finishErr]
                · have hd : Download o fileSize fs =
                      finalize o { fs with workingExists := true }
                        (if 0 < fileSize then
                          [FsEvent.created, FsEvent.prealloc fileSize]
                         else [FsEvent.created]) := by
                    simp [Download, hreq, hdo, hcreate, hpa, hcopy, htr]
                  rw [hd] at herr ⊢
                  exact finalize_error_cleanup _ _ _ e herr
            · by_cases hfs : 0 < fileSize
              · rw [show (Download o fileSize fs).1 = .error .preallocErr from by
                  simp [Download, hreq, hdo, hcreate, hpa, hfs]] at herr
                exact absurd (Except.error.inj herr).symm hne
              · rcases hcopy : o.copyResult with u | w
                · by_cases hctx : o.ctxCancelledAtCopy <;>
                    simp [Download, hreq, hdo, hcreate, hfs, hcopy, hctx, finishErr]
                · have hd : Download o fileSize fs =
                      finalize o { fs with workingExists := true } [FsEvent.created] := by
                    simp [Download, hreq, hdo, hcreate, hfs, hcopy]
                  rw [hd] at herr ⊢
                  exact finalize_error_cleanup _ _ _ e herr
          · simp [Download, hreq, hdo, hcreate] at hcr
        · simp [Download, hreq, hdo, hst] at hcr
    · simp [Download, hreq] at hcr
  · simp [Download, k1, k2, k3, k4, k5, k6, finishErr]

/-- Claim C5 witness: `download_cleanup` at a failing copy with a live
context (cleanup happens) and a failing copy under a cancelled context (the
context error is returned). -/
theorem download_cleanup_witness :
    (FsEvent.removedWorking ∈ (Download oCopyFail 5 fsW).2.2 ∧
      (Download oCopyFail 5 fsW).2.1.workingExists = false) ∧
    (Download oCancel 5 fsW).1 = .error .ctxCancelled :=
  download_cleanup oCopyFail 5 fsW .copyErr (by decide) (by decide) (by decide)
    oCancel 5 fsW rfl rfl rfl rfl rfl rfl

/-- Claim C6: every progress update of the single-connection fetcher stores
`verified_progress` equal to `downloaded`: a flush either leaves the state
untouched or stores the written count into both counters, and the final
store after the copy sets both counters to the written count; in all cases
the invariant `0 ≤ verified_progress ≤ downloaded` holds afterwards. -/
theorem single_progress_updates (w : progressReader) (now : Int)
    (st : ProgressState) (written : Int)
    (hst : w.state = some st) (hw : 0 ≤ w.written) (hinv : optInv w.state)
    (hwr : 0 ≤ written) :
    ((flushWithTime w now).state = some st ∨
      (flushWithTime w now).state =
        some { st with downloaded := w.written, verifiedProgress := w.written }) ∧
    optInv (flushWithTime w now).state ∧
    storeFinal st written =
      { st with downloaded := written, verifiedProgress := written } ∧
    optInv (some (storeFinal st written)) := by
  have hfin : optInv (some (storeFinal st written)) := by
    simp only [optInv, stInv, storeFinal]
    exact ⟨hwr, le_rfl⟩
  unfold flushWithTime
  rw [hst]
  dsimp only
  split
  · exact ⟨Or.inl hst, hinv, rfl, hfin⟩
  · refine ⟨Or.inr rfl, ?_, rfl, hfin⟩
    simp only [optInv, stInv]
    exact ⟨hw, le_rfl⟩

/-- Claim C6 witness: `single_progress_updates` at the concrete reader `wW`
over the state `stW`, with 7 bytes as the final written count. -/
theorem single_progress_updates_witness :
    ((flushWithTime wW 0).state = some stW ∨
      (flushWithTime wW 0).state =
        some { stW with downloaded := wW.written, verifiedProgress := wW.written }) ∧
    optInv (flushWithTime wW 0).state ∧
    storeFinal stW 7 =
      { stW with downloaded := 7, verifiedProgress := 7 } ∧
    optInv (some (storeFinal stW 7)) :=
  single_progress_updates wW 0 stW 7 rfl (by decide) (by decide) (by decide)

end Single

namespace Events

theorem mapM_asStr (xs : List String) :
    decodeList asStrJson (xs.map Json.str) = some xs := by
  induction xs with
  | nil => rfl
  | cons x xs ih => simp [decodeList, asStrJson, ih]

theorem mapM_asInt (xs : List Int) :
    decodeList asIntJson (xs.map Json.int) = some xs := by
  induction xs with
  | nil => rfl
  | cons x xs ih => simp [decodeList, asIntJson, ih]

theorem mapM_headerPairs (xs : List (String × String)) :
    decodeStrPairs (xs.map (fun kv => (kv.1, Json.str kv.2))) = some xs := by
  induction xs with
  | nil => rfl
  | cons x xs ih => simp [decodeStrPairs, ih]

theorem roundtrip_progress (m : ProgressMsg) :
    unmarshalProgress (marshalProgress m) = some m := by
  have h1 := mapM_asInt m.ChunkProgress
  simp [unmarshalProgress, marshalProgress, strField, intField, ratField,
        bytesField, intListField, getField, h1]

theorem roundtrip_request (m : DownloadRequestMsg) :
    unmarshalRequest (marshalRequest m) = some m := by
  have h1 := mapM_asStr m.Mirrors
  have h2 := mapM_headerPairs m.Headers
  simp [unmarshalRequest, marshalRequest, strField, strListField, headersField,
        getField, h1, h2]

theorem roundtrip_error (m : DownloadErrorMsg) :
    unmarshalError (marshalError m) =
      some { m with Err := if m.Err = some "" then none else m.Err } := by
  rcases m with ⟨id, fn, err⟩
  by_cases hfn : fn = ""
  · subst hfn
    rcases err with _ | e
    · rfl
    · by_cases he : e = ""
      · subst he
        rfl
      · simp [unmarshalError, marshalError, strField, getField, he]
  · rcases err with _ | e
    · simp [unmarshalError, marshalError, strField, getField, hfn]
    · by_cases he : e = ""
      · subst he
        simp [unmarshalError, marshalError, strField, getField, hfn]
      · simp [unmarshalError, marshalError, strField, getField, hfn, he]

/-- Claim C8 (amended): for every lifecycle message type, `EncodeSSEMessages`
produces exactly one SSE frame whose event name is the spec's name for that
message, and `DecodeSSEMessage` applied to that frame's event name and data
returns a message structurally equal to the original, except that a started
message's non-serialized `State` pointer decodes as nil and an error message
whose error text is empty decodes with no error (non-empty error text is
preserved); a batch of n progress messages is flattened into exactly n frames
of event type "progress". -/
theorem sse_roundtrip_amended (p : ProgressMsg) (s : DownloadStartedMsg)
    (c : DownloadCompleteMsg) (e : DownloadErrorMsg) (pa : DownloadPausedMsg)
    (r : DownloadResumedMsg) (qd : DownloadQueuedMsg) (rm : DownloadRemovedMsg)
    (rq : DownloadRequestMsg) (sy : SystemLogMsg) (batch : List ProgressMsg) :
    EncodeSSEMessages (.progress p) = [⟨"progress", marshalProgress p⟩] ∧
    DecodeSSEMessage "progress" (marshalProgress p) = (some (.progress p), true) ∧
    EncodeSSEMessages (.started s) = [⟨"started", marshalStarted s⟩] ∧
    DecodeSSEMessage "started" (marshalStarted s) =
      (some (.started { s with State := none }), true) ∧
    EncodeSSEMessages (.complete c) = [⟨"complete", marshalComplete c⟩] ∧
    DecodeSSEMessage "complete" (marshalComplete c) = (some (.complete c), true) ∧
    EncodeSSEMessages (.error e) = [⟨"error", marshalError e⟩] ∧
    DecodeSSEMessage "error" (marshalError e) =
      (some (.error { e with Err := if e.Err = some "" then none else e.Err }), true) ∧
    EncodeSSEMessages (.paused pa) = [⟨"paused", marshalPaused pa⟩] ∧
    DecodeSSEMessage "paused" (marshalPaused pa) = (some (.paused pa), true) ∧
    EncodeSSEMessages (.resumed r) = [⟨"resumed", marshalResumed r⟩] ∧
    DecodeSSEMessage "resumed" (marshalResumed r) = (some (.resumed r), true) ∧
    EncodeSSEMessages (.queued qd) = [⟨"queued", marshalQueued qd⟩] ∧
    DecodeSSEMessage "queued" (marshalQueued qd) = (some (.queued qd), true) ∧
    EncodeSSEMessages (.removed rm) = [⟨"removed", marshalRemoved rm⟩] ∧
    DecodeSSEMessage "removed" (marshalRemoved rm) = (some (.removed rm), true) ∧
    EncodeSSEMessages (.request rq) = [⟨"request", marshalRequest rq⟩] ∧
    DecodeSSEMessage "request" (marshalRequest rq) = (some (.request rq), true) ∧
    EncodeSSEMessages (.system sy) = [⟨"system", marshalSystem sy⟩] ∧
    DecodeSSEMessage "system" (marshalSystem sy) = (some (.system sy), true) ∧
    EncodeSSEMessages (.batch batch) = batch.map encodeProgressFrame ∧
    (EncodeSSEMessages (.batch batch)).length = batch.length ∧
    allProgressEvents (EncodeSSEMessages (.batch batch)) = true := by
  refine ⟨rfl, ?_, rfl, rfl, rfl, rfl, rfl, ?_, rfl, rfl, rfl, rfl, rfl, rfl,
    rfl, rfl, rfl, ?_, rfl, rfl, rfl, ?_, ?_⟩
  · simp [DecodeSSEMessage, roundtrip_progress]
  · simp [DecodeSSEMessage, roundtrip_error]
  · simp [DecodeSSEMessage, roundtrip_request]
  · simp [EncodeSSEMessages]
  · simp [allProgressEvents, EncodeSSEMessages, encodeProgressFrame, List.all_map,
      Function.comp]

/-- Claim C8 counterexample: decoding the encoded frame does not return a
message structurally equal to the original, neither for a started message
whose `State` pointer is non-nil (the `json:"-"` field decodes as nil) nor
for an error message whose error text is empty (`omitempty` drops it and it
decodes as no error). -/
theorem sse_roundtrip_counterexample :
    DecodeSSEMessage ((EncodeSSEMessages (.started startedCE)).headD nullFrame).Event
        ((EncodeSSEMessages (.started startedCE)).headD nullFrame).Data ≠
      (some (.started startedCE), true) ∧
    DecodeSSEMessage ((EncodeSSEMessages (.error errorCE)).headD nullFrame).Event
        ((EncodeSSEMessages (.error errorCE)).headD nullFrame).Data ≠
      (some (.error errorCE), true) := by
  constructor
  · decide
  · decide

end Events

end Surge
